import Mathlib

/-!
# Verification of the social-media uploader orchestration core

A shallow embedding of `src/social_media_uploader_js.js`: the retry driver
(`PlatformUploader.uploadWithRetry`), the sliding-window rate limiter
(`RateLimiter.checkLimit`), clip validation (`VideoClip.validate`), the batch
orchestrator (`SocialMediaUploader.uploadClips`), the scheduler
(`UploadScheduler.schedulePlatformUploads` / `checkScheduledJobs`) and the
analytics recorder (`Analytics.recordUpload` / `getStats`).

Conventions of the embedding:
* JavaScript timestamps (`Date.now()`) become `Nat` milliseconds.
* I/O effects (logging, network, file persistence) are dropped; the file
  system is an explicit map `String → Option Nat` from path to size in bytes.
* The platform upload operation is an injected function (the code's
  `this.upload(clip)` dynamic dispatch), returning either a value
  (possibly null/empty, which JavaScript treats as falsy) or a raised error.
* JavaScript object aliasing, which matters for `getStats`'s spread copy
  `{ ...this.data }`, is made explicit with a small heap of numbered cells.
-/

namespace Uploader

/-! ## Retry driver: `PlatformUploader.uploadWithRetry` (lines 298–324)

One call of the injected `upload` operation either returns a value (a
string identifier/URL, or null — both possibly falsy) or raises an error. -/

/-- Result of one invocation of the platform `upload` operation:
`value none` models a null/undefined return, `value (some s)` a string
return (falsy when `s` is empty), `raised m` a thrown error with message. -/
inductive AttemptOutcome where
  | value (id : Option String)
  | raised (msg : String)
deriving DecidableEq, Repr

/-- JavaScript truthiness of an upload operation's returned value. -/
def AttemptOutcome.truthy : AttemptOutcome → Bool
  | .value none => false
  | .value (some s) => !(s == "")
  | .raised _ => false

/-- Embedding of the `UploadResult` objects constructed by
`uploadWithRetry` (platform name omitted: it is a fixed parameter). -/
structure UploadResult where
  success : Bool
  url : Option String
  error : Option String
deriving DecidableEq, Repr

/-- Trace of one `uploadWithRetry` run: final result, number of times the
upload operation was invoked, and total backoff delay slept (ms). -/
structure RetryTrace where
  result : UploadResult
  invocations : Nat
  totalDelayMs : Nat
deriving DecidableEq, Repr

/-- The loop body of `uploadWithRetry`: `ops n` is the outcome of the
`n`-th invocation (attempts are numbered from 1 as in the source); `fuel`
counts the remaining iterations of `for (attempt = 1; attempt <= maxRetries)`.
On a truthy result the loop returns success immediately; on a raised error
it records the error and, when attempts remain, sleeps `2^attempt * 1000` ms;
on a falsy non-error result it just continues. -/
def retryGo (ops : Nat → AttemptOutcome) (maxRetries : Nat) :
    Nat → Option String → Nat → Nat → Nat → RetryTrace
  | _, lastError, inv, delayAcc, 0 =>
      ⟨⟨false, none, lastError⟩, inv, delayAcc⟩
  | attempt, lastError, inv, delayAcc, fuel + 1 =>
      match ops attempt with
      | .value id =>
          if (AttemptOutcome.value id).truthy then
            ⟨⟨true, id, none⟩, inv + 1, delayAcc⟩
          else
            retryGo ops maxRetries (attempt + 1) lastError (inv + 1) delayAcc fuel
      | .raised m =>
          let d := if attempt < maxRetries then 2 ^ attempt * 1000 else 0
          retryGo ops maxRetries (attempt + 1) (some m) (inv + 1) (delayAcc + d) fuel

/-- `PlatformUploader.uploadWithRetry(clip, maxRetries)`: run the upload
operation up to `maxRetries` times; return the first truthy result as a
success, otherwise a failure carrying the last raised error's message
(absent when no call ever raised). -/
def uploadWithRetry (ops : Nat → AttemptOutcome) (maxRetries : Nat) : RetryTrace :=
  retryGo ops maxRetries 1 none 0 0 maxRetries

/-! ## Clip data model and validation: `VideoClip` (lines 88–129) -/

/-- Embedding of the `VideoClip` metadata (the mutable `uploadUrls` mapping
is tracked in the batch result instead, and `createdAt` is dropped). -/
structure Clip where
  filePath : String
  title : String
  description : String
  tags : List String
  privacy : String
  platforms : List String
deriving DecidableEq, Repr

/-- The file system as seen by `fs.existsSync` / `fs.statSync`: a path maps
to `some size` (bytes) when the file exists, `none` otherwise. -/
def FileSys : Type := String → Option Nat

/-- 500 MB in bytes: the limit `fileSizeMB > 500` with
`fileSizeMB = size / (1024*1024)` is exact in floating point (division by a
power of two), so it is equivalent to `size > 500 * 1024 * 1024`. -/
def maxFileSizeBytes : Nat := 500 * 1024 * 1024

/-- The title test `!this.title || this.title.trim() === ''`: a string is
falsy exactly when empty, and trims to the empty string exactly when every
character is whitespace; so the test holds iff every character of the
title is whitespace (vacuously for the empty title). -/
def titleBlank (s : String) : Bool :=
  s.toList.all Char.isWhitespace

/-- `VideoClip.validate()`: throws when the file does not exist, when the
title is empty or whitespace-only, or when the file size exceeds 500 MB;
otherwise returns normally. -/
def validate (fs : FileSys) (c : Clip) : Except String Unit :=
  match fs c.filePath with
  | none => .error ("File not found: " ++ c.filePath)
  | some size =>
      if titleBlank c.title then .error "Title is required"
      else if maxFileSizeBytes < size then .error "File too large (max: 500MB)"
      else .ok ()

/-! ## Rate limiter: `RateLimiter.checkLimit` (lines 177–201)

The limiter keeps a list of recorded request timestamps. `checkLimit` at
time `now` prunes entries at least `windowMs` old, and, when the pruned
window already holds `maxRequests` entries, sleeps until the oldest entry
expires — but it then pushes the timestamp `now` captured *before* the
sleep, and control returns to the caller at `now + waitTime`. -/

/-- Result of one `checkLimit` call: the updated `this.requests` list, the
time slept, and the instant at which the call returns to the caller. -/
structure AcquireOut where
  requests : List Nat
  waitMs : Nat
  returnTime : Nat
deriving DecidableEq, Repr

/-- `RateLimiter.checkLimit()` at instant `now` (ms). The `reqs.min?`
match mirrors `Math.min(...this.requests)`: with an empty full window
(only possible when `maxRequests = 0`) JavaScript yields `Infinity` and a
negative — hence ineffective — wait, modelled as a zero wait. -/
def checkLimit (maxRequests windowMs : Nat) (requests : List Nat) (now : Nat) :
    AcquireOut :=
  let reqs := requests.filter fun t => now - t < windowMs
  if maxRequests ≤ reqs.length then
    match reqs.min? with
    | some oldest =>
        let wait := windowMs - (now - oldest)
        ⟨reqs ++ [now], wait, now + wait⟩
    | none => ⟨reqs ++ [now], 0, now⟩
  else ⟨reqs ++ [now], 0, now⟩

/-- Number of recorded timestamps lying in the trailing window of length
`windowMs` ending at instant `u`. -/
def windowCount (windowMs : Nat) (u : Nat) (requests : List Nat) : Nat :=
  (requests.filter fun t => u - t < windowMs).length

/-- Reachable limiter states: `RLReach m W s ret` holds when a sequence of
sequential `checkLimit` calls (each entered no earlier than the previous
call returned, as the single-caller-per-instance model prescribes) leaves
the recorded list `s`, the last call having returned at instant `ret`. -/
inductive RLReach (maxRequests windowMs : Nat) : List Nat → Nat → Prop where
  | init : RLReach maxRequests windowMs [] 0
  | step {s : List Nat} {ret : Nat} (t : Nat) :
      RLReach maxRequests windowMs s ret → ret ≤ t →
      RLReach maxRequests windowMs
        (checkLimit maxRequests windowMs s t).requests
        (checkLimit maxRequests windowMs s t).returnTime

/-! ## Batch orchestrator: `SocialMediaUploader.uploadClips` (lines 739–837)

The per-(clip, platform) call to `uploadWithRetry` is abstracted as an
injected step function (clip index, clip, platform) → outcome: `ok url`
for a successful `UploadResult`, `fail err` for a failed one (`result.error`
may be `undefined`, see `uploadWithRetry`), and `exn msg` for an exception
thrown inside the per-platform `try` block. -/

/-- Outcome of one `uploader.uploadWithRetry(clip)` call site in the batch
loop, as observed by `uploadClips`. -/
inductive UploadStep where
  | ok (url : String)
  | fail (err : Option String)
  | exn (msg : String)
deriving DecidableEq, Repr

/-- The batch's accumulated state: per-configured-platform URL lists (the
`results` object), the `failed` list, and — for specification purposes —
the ordered log of `(clip index, platform)` pairs on which an upload was
actually attempted. -/
structure BatchState where
  results : List (String × List String)
  failed : List String
  attempts : List (Nat × String)
deriving DecidableEq, Repr

/-- `results[platform] = []` for each configured platform, in order. -/
def initResults (cfg : List String) : List (String × List String) :=
  cfg.map fun p => (p, [])

/-- `results[platform].push(url)`. -/
def pushResult (platform url : String) (rs : List (String × List String)) :
    List (String × List String) :=
  rs.map fun pr => if pr.1 = platform then (pr.1, pr.2 ++ [url]) else pr

/-- JavaScript template-literal rendering of a possibly-undefined error. -/
def errText : Option String → String
  | some e => e
  | none => "undefined"

/-- The inner platform loop of `uploadClips` for the clip at index `i`:
unknown platforms are logged and skipped; otherwise `uploadWithRetry` is
invoked (logged in `attempts`) and its outcome recorded, a thrown exception
being caught and recorded as a failure entry like a failed result. -/
def processPlatforms (known : String → Bool) (step : Nat → Clip → String → UploadStep)
    (i : Nat) (c : Clip) : BatchState → List String → BatchState
  | st, [] => st
  | st, p :: rest =>
      if known p then
        let st1 : BatchState := { st with attempts := st.attempts ++ [(i, p)] }
        let st2 : BatchState :=
          match step i c p with
          | .ok url =>
              { st1 with results := pushResult p url st1.results }
          | .fail err =>
              { st1 with failed := st1.failed ++ [c.title ++ " -> " ++ p ++ ": " ++ errText err] }
          | .exn m =>
              { st1 with failed := st1.failed ++ [c.title ++ " -> " ++ p ++ ": " ++ m] }
        processPlatforms known step i c st2 rest
      else processPlatforms known step i c st rest

/-- The outer clip loop of `uploadClips`: a clip failing `validate()` gets
one failure entry and is skipped (`continue`); a valid clip is driven
through every configured platform. -/
def processClips (fs : FileSys) (cfg : List String) (known : String → Bool)
    (step : Nat → Clip → String → UploadStep) :
    Nat → BatchState → List Clip → BatchState
  | _, st, [] => st
  | i, st, c :: rest =>
      match validate fs c with
      | .error msg =>
          processClips fs cfg known step (i + 1)
            { st with failed := st.failed ++ [c.title ++ ": " ++ msg] } rest
      | .ok _ =>
          processClips fs cfg known step (i + 1)
            (processPlatforms known step i c st cfg) rest

/-- `SocialMediaUploader.uploadClips(clips)`: note that the platform loop
iterates over the *configured* list `CONFIG.PLATFORMS_TO_UPLOAD` (`cfg`),
never consulting `clip.platforms`. -/
def uploadClips (fs : FileSys) (cfg : List String) (known : String → Bool)
    (step : Nat → Clip → String → UploadStep) (clips : List Clip) : BatchState :=
  processClips fs cfg known step 0 ⟨initResults cfg, [], []⟩ clips

/-- The attempt log `uploadClips` is specified to produce: for each clip
(in order), nothing when validation fails, otherwise one attempt per
known configured platform in configured order — independent of outcomes. -/
def expectedAttempts (fs : FileSys) (cfg : List String) (known : String → Bool) :
    Nat → List Clip → List (Nat × String)
  | _, [] => []
  | i, c :: rest =>
      (match validate fs c with
        | .ok _ => (cfg.filter known).map fun p => (i, p)
        | .error _ => [])
        ++ expectedAttempts fs cfg known (i + 1) rest

/-- `CONFIG.PLATFORMS_TO_UPLOAD` as shipped. -/
def defaultConfigPlatforms : List String := ["youtube", "instagram", "tiktok"]

/-- The platforms with a registered uploader in `this.uploaders`. -/
def knownUploaders : String → Bool := fun p =>
  p == "youtube" || p == "instagram" || p == "tiktok" || p == "linkedin" || p == "twitter"

/-! ## Scheduler: `UploadScheduler` (lines 544–645)

Wall-clock instants are split into a calendar day index and a
millisecond-of-day, which is what `setHours(h, m, 0, 0)` / `setDate(d + 1)`
manipulate; comparisons between two instants of the same or adjacent days
(`scheduleTime < new Date()`, `job.scheduleTime <= now`) are the
lexicographic order on these pairs. -/

/-- A local wall-clock instant: calendar day index and ms since midnight. -/
structure LocalTime where
  day : Nat
  msOfDay : Nat
deriving DecidableEq, Repr

/-- `a < b` on wall-clock instants. -/
def LocalTime.before (a b : LocalTime) : Bool :=
  a.day < b.day || (a.day = b.day && a.msOfDay < b.msOfDay)

/-- `a ≤ b` on wall-clock instants. -/
def LocalTime.beforeEq (a b : LocalTime) : Bool :=
  a.day < b.day || (a.day = b.day && a.msOfDay ≤ b.msOfDay)

/-- The target-time computation of `schedulePlatformUploads` for one
`"HH:MM"` entry (already split and parsed into `hh`/`mm`): set today's date
to that time of day, and roll to the next day when that instant has
already passed. -/
def nextOccurrence (now : LocalTime) (hh mm : Nat) : LocalTime :=
  let target : LocalTime := ⟨now.day, (hh * 60 + mm) * 60000⟩
  if target.before now then ⟨target.day + 1, target.msOfDay⟩ else target

/-- Lifecycle states of a `ScheduledJob` (`job.status`). -/
inductive JobStatus where
  | scheduled
  | executing
  | completed
  | failed
deriving DecidableEq, Repr

/-- A `ScheduledJob` record: the owned clip, target time, status, the
result or error recorded at resolution, and the removal instant installed
by the 24-hour cleanup `setTimeout` (absent until resolution). -/
structure Job where
  clip : Clip
  scheduleTime : LocalTime
  status : JobStatus
  result : Option BatchState
  error : Option String
  removeAtMs : Option Nat
deriving DecidableEq, Repr

/-- `scheduleUpload(clip, scheduleTime)`: a fresh job in state `scheduled`. -/
def scheduleUpload (c : Clip) (t : LocalTime) : Job :=
  ⟨c, t, .scheduled, none, none, none⟩

/-- `schedulePlatformUploads(clip, platformSchedule)`: for each
platform / time-of-day pair (in entry order), derive a single-platform
clip (`{ ...clip, platforms: [platform] }`) and schedule it for the next
occurrence of that time of day. One job (hence one job id) per pair. -/
def schedulePlatformUploads (now : LocalTime) (c : Clip)
    (platformSchedule : List (String × Nat × Nat)) : List Job :=
  platformSchedule.map fun e =>
    scheduleUpload { c with platforms := [e.1] } (nextOccurrence now e.2.1 e.2.2)

/-- 24 hours in milliseconds: the retention delay of the cleanup timer. -/
def retentionMs : Nat := 24 * 60 * 60 * 1000

/-- The body of `checkScheduledJobs` for one due job: set `executing`,
run the orchestrator on the single-clip batch, then mark `completed` with
the result or `failed` with the caught error's message, and install the
24-hour removal timer (`nowMs` is the tick instant in absolute ms). -/
def executeJob (orch : Clip → Except String BatchState) (nowMs : Nat) (j : Job) : Job :=
  let j1 : Job := { j with status := .executing }
  match orch j1.clip with
  | .ok r =>
      { j1 with
        status := .completed
        result := some r
        removeAtMs := some (nowMs + retentionMs) }
  | .error e =>
      { j1 with
        status := .failed
        error := some e
        removeAtMs := some (nowMs + retentionMs) }

/-- One scheduler tick, `checkScheduledJobs()`: every job that is in state
`scheduled` with `scheduleTime <= now` is executed; all other jobs are
left untouched. -/
def checkScheduledJobs (orch : Clip → Except String BatchState)
    (now : LocalTime) (nowMs : Nat) (jobs : List Job) : List Job :=
  jobs.map fun j =>
    if j.status = .scheduled ∧ j.scheduleTime.beforeEq now then
      executeJob orch nowMs j
    else j

/-- Firing of the pending cleanup timers at absolute instant `nowMs`: a
job is deleted from `this.scheduledJobs` once its 24-hour retention timer
(installed at resolution) has elapsed, and only then. -/
def sweepExpired (nowMs : Nat) (jobs : List Job) : List Job :=
  jobs.filter fun j =>
    match j.removeAtMs with
    | some r => decide (nowMs < r)
    | none => true

/-! ## Analytics: `Analytics` (lines 203–276)

`this.data` is a root object whose `totalUploads` field is a number
(copied by value by the spread in `getStats`) and whose four collection
fields are references into the JavaScript heap (copied *by reference* by
the spread). The heap is made explicit as numbered cells so that the
aliasing between the live `this.data` and returned snapshots is visible:
`recordUpload` mutates the cells in place and never re-seats the root's
references. Success rates are exact rationals (the JavaScript divisions
here only matter up to equality with `successes / totalAttempts`). -/

/-- `platformPerformance[platform]` entry. -/
structure PlatPerf where
  successRate : Rat
  totalAttempts : Nat
  lastUpload : Option String
  commonErrors : List (String × Nat)
deriving DecidableEq, Repr

/-- One batch summary pushed by `addUploadBatch`. -/
structure BatchSummary where
  timestamp : String
  clipsCount : Nat
  platforms : List String
  results : List (String × List String)
  failed : List String
deriving DecidableEq, Repr

/-- A heap cell: one of the four collection objects owned by `this.data`. -/
inductive HeapVal where
  | counters (m : List (String × Nat))
  | perfTable (m : List (String × PlatPerf))
  | history (l : List BatchSummary)
deriving DecidableEq, Repr

/-- Heap cell lookup. -/
def heapGet (h : List (Nat × HeapVal)) (r : Nat) : Option HeapVal :=
  h.lookup r

/-- In-place heap cell update. -/
def heapSet (h : List (Nat × HeapVal)) (r : Nat) (v : HeapVal) :
    List (Nat × HeapVal) :=
  h.map fun cell => if cell.1 = r then (cell.1, v) else cell

/-- The root object `this.data`: its number field by value, its collection
fields as heap references. -/
structure DataRoot where
  totalUploads : Nat
  succRef : Nat
  failRef : Nat
  histRef : Nat
  perfRef : Nat
deriving DecidableEq, Repr

/-- The analytics instance: the heap plus the root `this.data`. -/
structure AnalyticsObj where
  heap : List (Nat × HeapVal)
  data : DataRoot
deriving DecidableEq, Repr

/-- Freshly constructed `Analytics` (persisted state ignored, per the
spec's exclusion of the persistence collaborator). -/
def initAnalytics : AnalyticsObj :=
  ⟨[(0, .counters []), (1, .counters []), (2, .history []), (3, .perfTable [])],
    ⟨0, 0, 1, 2, 3⟩⟩

/-- `obj[key] || 0` on a counter object. -/
def getCount (m : List (String × Nat)) (k : String) : Nat :=
  (m.lookup k).getD 0

/-- `obj[key] = v`: JavaScript property assignment on an object modelled as
an association list (insertion order preserved, as in JS enumeration). -/
def setAssoc {α : Type} (m : List (String × α)) (k : String) (v : α) :
    List (String × α) :=
  if (m.lookup k).isSome then
    m.map fun kv => if kv.1 = k then (kv.1, v) else kv
  else m ++ [(k, v)]

/-- Update a counter cell of the heap with `obj[key] = (obj[key] || 0) + 1`. -/
def bumpCounterCell (h : List (Nat × HeapVal)) (r : Nat) (k : String) :
    List (Nat × HeapVal) :=
  match heapGet h r with
  | some (.counters m) => heapSet h r (.counters (setAssoc m k (getCount m k + 1)))
  | _ => h

/-- `Analytics.recordUpload(platform, success, error)` at timestamp `now`
(the `new Date().toISOString()` string): increments `totalUploads` and the
per-platform success or failure counter, initialises the platform's
performance entry if missing, increments its attempt counter and stamps
`lastUpload`; then, on success only, recomputes
`successRate = (successfulUploads[platform] || 0) / totalAttempts`, and on
failure with an error message bumps that message's frequency. -/
def recordUpload (now : String) (a : AnalyticsObj) (platform : String)
    (success : Bool) (error : Option String) : AnalyticsObj :=
  let root : DataRoot := { a.data with totalUploads := a.data.totalUploads + 1 }
  let h1 : List (Nat × HeapVal) :=
    if success then bumpCounterCell a.heap root.succRef platform
    else bumpCounterCell a.heap root.failRef platform
  let h2 : List (Nat × HeapVal) :=
    match heapGet h1 root.perfRef with
    | some (.perfTable pm) =>
        let pm1 : List (String × PlatPerf) :=
          if (pm.lookup platform).isSome then pm
          else pm ++ [(platform, ⟨0, 0, none, []⟩)]
        match pm1.lookup platform with
        | some perf =>
            let perf1 : PlatPerf :=
              { perf with totalAttempts := perf.totalAttempts + 1, lastUpload := some now }
            let succCount : Nat :=
              match heapGet h1 root.succRef with
              | some (.counters sm) => getCount sm platform
              | _ => 0
            let perf2 : PlatPerf :=
              if success then
                { perf1 with successRate := (succCount : Rat) / (perf1.totalAttempts : Rat) }
              else
                match error with
                | some e =>
                    let ce := setAssoc perf1.commonErrors e (getCount perf1.commonErrors e + 1)
                    { perf1 with commonErrors := ce }
                | none => perf1
            heapSet h1 root.perfRef (.perfTable (setAssoc pm1 platform perf2))
        | none => h1
    | _ => h1
  ⟨h2, root⟩

/-- `Analytics.addUploadBatch(batchData)` at timestamp `now`: push one
summary onto the shared `uploadHistory` array. -/
def addUploadBatch (now : String) (a : AnalyticsObj) (clipsCount : Nat)
    (platforms : List String) (results : List (String × List String))
    (failed : List String) : AnalyticsObj :=
  match heapGet a.heap a.data.histRef with
  | some (.history l) =>
      ⟨heapSet a.heap a.data.histRef
        (.history (l ++ [⟨now, clipsCount, platforms, results, failed⟩])), a.data⟩
  | _ => a

/-- `Analytics.getStats()`: the spread `{ ...this.data }` copies the root
record — the number field by value and the collection fields as the same
heap references. -/
def getStats (a : AnalyticsObj) : DataRoot :=
  a.data

/-- Dereferencing a snapshot's `successfulUploads` field against the heap
of a given (possibly later) program state. -/
def snapSuccView (snap : DataRoot) (live : AnalyticsObj) : Option HeapVal :=
  heapGet live.heap snap.succRef

/-- The per-platform performance entry as currently stored. -/
def perfOf (a : AnalyticsObj) (p : String) : Option PlatPerf :=
  match heapGet a.heap a.data.perfRef with
  | some (.perfTable pm) => pm.lookup p
  | _ => none

/-- The per-platform success count as currently stored. -/
def succCountOf (a : AnalyticsObj) (p : String) : Nat :=
  match heapGet a.heap a.data.succRef with
  | some (.counters sm) => getCount sm p
  | _ => 0

/-- The canonical shape of every analytics state the program can reach:
the four collection objects are allocated once by the constructor at
addresses 0–3 and the root's references never move. `initAnalytics` is
`mkAnalytics 0 [] [] [] []`, and `recordUpload` / `addUploadBatch` map
canonical states to canonical states (`recordUpload_mk`,
`addUploadBatch_mk`). -/
def mkAnalytics (tu : Nat) (sm fm : List (String × Nat)) (hist : List BatchSummary)
    (pm : List (String × PlatPerf)) : AnalyticsObj :=
  ⟨[(0, .counters sm), (1, .counters fm), (2, .history hist), (3, .perfTable pm)],
    ⟨tu, 0, 1, 2, 3⟩⟩

/-- The performance entry as rewritten by `recordUpload`: attempts bumped
and `lastUpload` stamped; on success the rate is recomputed from the
already-updated success counter, on failure the rate is left as it was
and only the error-frequency table may change. -/
def newPerf (now : String) (sm : List (String × Nat)) (pm : List (String × PlatPerf))
    (p : String) (success : Bool) (e : Option String) : PlatPerf :=
  let perfOld := (pm.lookup p).getD ⟨0, 0, none, []⟩
  if success then
    ⟨((getCount sm p + 1 : Nat) : Rat) / ((perfOld.totalAttempts + 1 : Nat) : Rat),
      perfOld.totalAttempts + 1, some now, perfOld.commonErrors⟩
  else
    match e with
    | some err =>
        ⟨perfOld.successRate, perfOld.totalAttempts + 1, some now,
          setAssoc perfOld.commonErrors err (getCount perfOld.commonErrors err + 1)⟩
    | none =>
        ⟨perfOld.successRate, perfOld.totalAttempts + 1, some now, perfOld.commonErrors⟩

/-! ## Sample concrete inputs (used by witnesses) -/

/-- A file system holding one 100-byte video file. -/
def sampleFS : FileSys := fun p => if p = "a.mp4" then some 100 else none

/-- A valid clip targeting (per its own metadata) only YouTube. -/
def sampleClip : Clip :=
  ⟨"a.mp4", "My Clip", "d", ["shorts"], "public", ["youtube"]⟩

/-- A clip whose file does not exist. -/
def missingFileClip : Clip :=
  ⟨"b.mp4", "Bad", "d", [], "public", ["youtube"]⟩

/-! ## Theorems -/

/-- C5: `VideoClip.validate` fails exactly when the file path does not
reference an existing file, or the title is empty or whitespace-only, or
the file's size exceeds the 500 MB maximum; when the file exists, the
trimmed title is non-empty and the size is within bounds, validation
succeeds. `validate` is a pure function of the clip's metadata and the
file system — no network operation is involved. -/
theorem validate_fails_iff (fs : FileSys) (c : Clip) :
    ((∃ msg, validate fs c = .error msg) ↔
      (fs c.filePath = none ∨ titleBlank c.title = true ∨
        ∃ size, fs c.filePath = some size ∧ maxFileSizeBytes < size)) ∧
    (∀ size, fs c.filePath = some size → titleBlank c.title = false →
      size ≤ maxFileSizeBytes → validate fs c = .ok ()) := by
  constructor
  · unfold validate
    cases hfs : fs c.filePath with
    | none => simp
    | some size =>
        by_cases ht : titleBlank c.title <;> by_cases hs : maxFileSizeBytes < size <;>
          simp [ht, hs]
  · intro size hfs ht hs
    unfold validate
    rw [hfs]
    simp [ht, Nat.not_lt.mpr hs]

/-- C5 witness: `sampleClip` on `sampleFS` satisfies all three conditions
and validates. -/
theorem validate_fails_iff_witness :
    sampleFS sampleClip.filePath = some 100 ∧ titleBlank sampleClip.title = false ∧
    100 ≤ maxFileSizeBytes ∧ validate sampleFS sampleClip = .ok () :=
  ⟨by decide, by decide, by decide,
    (validate_fails_iff sampleFS sampleClip).2 100 (by decide) (by decide) (by decide)⟩

/-- C2: with an operation that raises on every call and `maxRetries = 3`,
`uploadWithRetry` invokes the operation exactly 3 times and returns a
failure carrying the last raised error's message; with an operation that
raises on the 1st call and returns a non-empty identifier on the 2nd, it
invokes the operation exactly 2 times and returns success with that
identifier (which the platform operation already returns as a URL). -/
theorem uploadWithRetry_attempts (ops fails : Nat → AttemptOutcome)
    (e : Nat → String) (id : String)
    (hfails : ∀ i, fails i = .raised (e i))
    (h1 : ops 1 = .raised (e 1)) (h2 : ops 2 = .value (some id)) (hid : id ≠ "") :
    uploadWithRetry fails 3 =
      ⟨⟨false, none, some (e 3)⟩, 3, 2 ^ 1 * 1000 + 2 ^ 2 * 1000⟩ ∧
    (uploadWithRetry ops 3).result = ⟨true, some id, none⟩ ∧
    (uploadWithRetry ops 3).invocations = 2 := by
  refine ⟨?_, ?_, ?_⟩
  · simp [uploadWithRetry, retryGo, hfails 1, hfails 2, hfails 3,
      AttemptOutcome.truthy]
  · simp [uploadWithRetry, retryGo, h1, h2, AttemptOutcome.truthy, hid]
  · simp [uploadWithRetry, retryGo, h1, h2, AttemptOutcome.truthy, hid]

/-- C2 witness: concrete always-raising and second-call-succeeding
operations. -/
theorem uploadWithRetry_attempts_witness :
    uploadWithRetry (fun i => .raised (toString i)) 3 =
      ⟨⟨false, none, some "3"⟩, 3, 2 ^ 1 * 1000 + 2 ^ 2 * 1000⟩ ∧
    (uploadWithRetry (fun i => if i = 1 then .raised "1" else .value (some "u")) 3).result
      = ⟨true, some "u", none⟩ ∧
    (uploadWithRetry (fun i => if i = 1 then .raised "1" else .value (some "u")) 3).invocations
      = 2 :=
  uploadWithRetry_attempts (fun i => if i = 1 then .raised "1" else .value (some "u"))
    (fun i => .raised (toString i)) (fun i => toString i) "u"
    (fun _ => rfl) (by decide) (by decide) (by decide)

/-- Helper for C10: the loop never sleeps, never records an error, and
consumes all remaining attempts when every invocation returns a falsy
value without raising. -/
theorem retryGo_falsy (ops : Nat → AttemptOutcome) (m : Nat)
    (h : ∀ i, ops i = .value none ∨ ops i = .value (some "")) :
    ∀ fuel attempt inv d,
      retryGo ops m attempt none inv d fuel = ⟨⟨false, none, none⟩, inv + fuel, d⟩ := by
  intro fuel
  induction fuel with
  | zero => intro attempt inv d; simp [retryGo]
  | succ n ih =>
      intro attempt inv d
      have harith : inv + 1 + n = inv + (n + 1) := by omega
      rcases h attempt with hv | hv <;>
      · rw [show retryGo ops m attempt none inv d (n + 1) =
            retryGo ops m (attempt + 1) none (inv + 1) d n by
            simp [retryGo, hv, AttemptOutcome.truthy]]
        rw [ih (attempt + 1) (inv + 1) d, harith]

/-- C10: when every call of the upload operation returns an empty or
otherwise falsy identifier without raising, `uploadWithRetry` proceeds
straight to the next attempt (zero total backoff delay — the delay branch
runs only in the catch handler), exhausts all `maxRetries` attempts, and
returns a failure whose error description is absent. -/
theorem uploadWithRetry_falsy_no_delay (ops : Nat → AttemptOutcome) (maxRetries : Nat)
    (h : ∀ i, ops i = .value none ∨ ops i = .value (some "")) :
    uploadWithRetry ops maxRetries = ⟨⟨false, none, none⟩, maxRetries, 0⟩ := by
  simpa [uploadWithRetry] using retryGo_falsy ops maxRetries h maxRetries 1 0 0

/-- C10 witness: the empty-string-returning operation with 3 attempts. -/
theorem uploadWithRetry_falsy_no_delay_witness :
    uploadWithRetry (fun _ => .value (some "")) 3 = ⟨⟨false, none, none⟩, 3, 0⟩ :=
  uploadWithRetry_falsy_no_delay (fun _ => .value (some "")) 3 (fun _ => .inr rfl)

/-- C7: `schedulePlatformUploads` creates exactly one job per
platform/time-of-day pair; each job carries the derived single-platform
clip and is targeted at `nextOccurrence` of its time of day, which is
today's date when that time of day is still in the future and tomorrow's
date when it has already passed at the moment of the call. -/
theorem schedulePlatformUploads_next_occurrence (now : LocalTime) (c : Clip)
    (sched : List (String × Nat × Nat)) :
    (schedulePlatformUploads now c sched).length = sched.length ∧
    ((schedulePlatformUploads now c sched).map Job.scheduleTime =
      sched.map fun e => nextOccurrence now e.2.1 e.2.2) ∧
    ((schedulePlatformUploads now c sched).map (fun j => j.clip.platforms) =
      sched.map fun e => [e.1]) ∧
    (∀ hh mm, (hh * 60 + mm) * 60000 < now.msOfDay →
      nextOccurrence now hh mm = ⟨now.day + 1, (hh * 60 + mm) * 60000⟩) ∧
    (∀ hh mm, now.msOfDay < (hh * 60 + mm) * 60000 →
      nextOccurrence now hh mm = ⟨now.day, (hh * 60 + mm) * 60000⟩) := by
  refine ⟨?_, ?_, ?_, ?_, ?_⟩
  · simp [schedulePlatformUploads]
  · simp [schedulePlatformUploads, scheduleUpload]
  · simp [schedulePlatformUploads, scheduleUpload]
  · intro hh mm hpast
    simp [nextOccurrence, LocalTime.before, hpast]
  · intro hh mm hfut
    simp [nextOccurrence, LocalTime.before, Nat.not_lt.mpr (Nat.le_of_lt hfut)]

/-- C7 witness: at 01:00 of day 100, a "00:30" slot rolls to day 101 and a
"02:00" slot stays on day 100; one job per schedule entry. -/
theorem schedulePlatformUploads_next_occurrence_witness :
    (schedulePlatformUploads ⟨100, 3600000⟩ sampleClip
        [("youtube", 0, 30), ("instagram", 2, 0)]).length = 2 ∧
    (0 * 60 + 30) * 60000 < (3600000 : Nat) ∧
    nextOccurrence ⟨100, 3600000⟩ 0 30 = ⟨101, 1800000⟩ ∧
    (3600000 : Nat) < (2 * 60 + 0) * 60000 ∧
    nextOccurrence ⟨100, 3600000⟩ 2 0 = ⟨100, 7200000⟩ := by
  have h := schedulePlatformUploads_next_occurrence ⟨100, 3600000⟩ sampleClip
    [("youtube", 0, 30), ("instagram", 2, 0)]
  exact ⟨h.1, by decide, h.2.2.2.1 0 30 (by decide), by decide,
    h.2.2.2.2 2 0 (by decide)⟩

/-- C8: at a tick, every job in state `scheduled` whose target time has
passed (`target ≤ now`) is executed: it moves through `executing` to
`completed` (recording the orchestrator's result) on normal completion and
to `failed` (recording the error) on an exception, and its removal timer
is installed for 24 hours after resolution; a resolved job stays in the
active set exactly until that timer elapses; a job not in state
`scheduled` is left untouched by the tick. -/
theorem checkScheduledJobs_lifecycle (orch : Clip → Except String BatchState)
    (now : LocalTime) (nowMs : Nat) (jobs : List Job) (k : Nat) (j : Job)
    (hj : jobs[k]? = some j) :
    (j.status = .scheduled → j.scheduleTime.beforeEq now = true →
      (checkScheduledJobs orch now nowMs jobs)[k]? = some (executeJob orch nowMs j) ∧
      (∀ r, orch j.clip = .ok r →
        (executeJob orch nowMs j).status = .completed ∧
        (executeJob orch nowMs j).result = some r) ∧
      (∀ e, orch j.clip = .error e →
        (executeJob orch nowMs j).status = .failed ∧
        (executeJob orch nowMs j).error = some e) ∧
      (executeJob orch nowMs j).removeAtMs = some (nowMs + retentionMs)) ∧
    (j.status ≠ .scheduled → (checkScheduledJobs orch now nowMs jobs)[k]? = some j) ∧
    (∀ u r, j.removeAtMs = some r → (j ∈ sweepExpired u jobs ↔ u < r)) := by
  have hmem : j ∈ jobs := by
    have := List.getElem?_eq_some_iff.mp hj
    rcases this with ⟨hk, hget⟩
    exact hget ▸ List.getElem_mem hk
  refine ⟨?_, ?_, ?_⟩
  · intro hs ht
    refine ⟨?_, ?_, ?_, ?_⟩
    · simp [checkScheduledJobs, List.getElem?_map, hj, hs, ht]
    · intro r hr
      simp [executeJob, hr]
    · intro e he
      simp [executeJob, he]
    · unfold executeJob
      cases horch : orch j.clip <;> simp [horch]
  · intro hs
    simp [checkScheduledJobs, List.getElem?_map, hj, hs]
  · intro u r hr
    constructor
    · intro hin
      have := List.of_mem_filter hin
      simpa [hr] using this
    · intro hu
      exact List.mem_filter.mpr ⟨hmem, by simp [hr, hu]⟩

/-- C8 witness: a due scheduled job completes under a succeeding
orchestrator, gets a 24-hour removal timer, and survives a sweep strictly
before — but not at — timer expiry; an already-completed job is untouched. -/
theorem checkScheduledJobs_lifecycle_witness :
    (checkScheduledJobs (fun _ => .ok ⟨[], [], []⟩) ⟨100, 60000⟩ 7
        [scheduleUpload sampleClip ⟨100, 0⟩])[0]? =
      some (executeJob (fun _ => .ok ⟨[], [], []⟩) 7 (scheduleUpload sampleClip ⟨100, 0⟩)) ∧
    (executeJob (fun _ => .ok ⟨[], [], []⟩) 7 (scheduleUpload sampleClip ⟨100, 0⟩)).status
      = .completed ∧
    (executeJob (fun _ => .ok ⟨[], [], []⟩) 7 (scheduleUpload sampleClip ⟨100, 0⟩)).removeAtMs
      = some (7 + retentionMs) := by
  have h := checkScheduledJobs_lifecycle (fun _ => .ok ⟨[], [], []⟩) ⟨100, 60000⟩ 7
    [scheduleUpload sampleClip ⟨100, 0⟩] 0 (scheduleUpload sampleClip ⟨100, 0⟩) (by decide)
  have h1 := h.1 (by decide) (by decide)
  exact ⟨h1.1, (h1.2.1 ⟨[], [], []⟩ rfl).1, h1.2.2.2⟩

/-- The platform loop logs exactly one attempt per known configured
platform, in configured order, whatever the upload outcomes are. -/
theorem processPlatforms_attempts (known : String → Bool)
    (step : Nat → Clip → String → UploadStep) (i : Nat) (c : Clip) :
    ∀ ps st, (processPlatforms known step i c st ps).attempts =
      st.attempts ++ (ps.filter known).map fun p => (i, p) := by
  intro ps
  induction ps with
  | nil => intro st; simp [processPlatforms]
  | cons p rest ih =>
      intro st
      by_cases hp : known p
      · cases hstep : step i c p <;>
          simp [processPlatforms, hp, hstep, ih, List.filter_cons]
      · simp [processPlatforms, hp, ih, List.filter_cons]

/-- The platform loop only appends to the failure list: existing entries
survive. -/
theorem processPlatforms_failed_mem (known : String → Bool)
    (step : Nat → Clip → String → UploadStep) (i : Nat) (c : Clip) (x : String) :
    ∀ ps st, x ∈ st.failed → x ∈ (processPlatforms known step i c st ps).failed := by
  intro ps
  induction ps with
  | nil => intro st hx; simpa [processPlatforms] using hx
  | cons p rest ih =>
      intro st hx
      by_cases hp : known p
      · cases hstep : step i c p <;>
        · simp only [processPlatforms, hp, if_true, hstep]
          exact ih _ (by simp [hx])
      · simp only [processPlatforms, hp, if_false]
        exact ih st hx

/-- The clip loop's attempt log is the specified one: independent of the
step outcomes, covering exactly the valid clips. -/
theorem processClips_attempts (fs : FileSys) (cfg : List String)
    (known : String → Bool) (step : Nat → Clip → String → UploadStep) :
    ∀ clips i st, (processClips fs cfg known step i st clips).attempts =
      st.attempts ++ expectedAttempts fs cfg known i clips := by
  intro clips
  induction clips with
  | nil => intro i st; simp [processClips, expectedAttempts]
  | cons c rest ih =>
      intro i st
      cases hv : validate fs c with
      | error msg => simp [processClips, expectedAttempts, hv, ih]
      | ok u =>
          cases u
          simp [processClips, expectedAttempts, hv, ih, processPlatforms_attempts,
            List.append_assoc]

/-- The clip loop only appends to the failure list: existing entries
survive. -/
theorem processClips_failed_mem (fs : FileSys) (cfg : List String)
    (known : String → Bool) (step : Nat → Clip → String → UploadStep) (x : String) :
    ∀ (clips : List Clip) (i : Nat) (st : BatchState),
      x ∈ st.failed → x ∈ (processClips fs cfg known step i st clips).failed := by
  intro clips
  induction clips with
  | nil => intro i st hx; simpa [processClips] using hx
  | cons c rest ih =>
      intro i st hx
      cases hv : validate fs c with
      | error msg =>
          simp only [processClips, hv]
          exact ih (i + 1) _ (by simp [hx])
      | ok u =>
          cases u
          simp only [processClips, hv]
          exact ih (i + 1) _ (processPlatforms_failed_mem known step i c x cfg st hx)

/-- A clip that fails validation contributes its tagged failure entry. -/
theorem processClips_invalid_entry (fs : FileSys) (cfg : List String)
    (known : String → Bool) (step : Nat → Clip → String → UploadStep) :
    ∀ (clips : List Clip) (i : Nat) (st : BatchState) (j : Nat) (c : Clip) (msg : String),
      clips[j]? = some c → validate fs c = .error msg →
      (c.title ++ ": " ++ msg) ∈ (processClips fs cfg known step i st clips).failed := by
  intro clips
  induction clips with
  | nil => intro i st j c msg hc; simp at hc
  | cons c0 rest ih =>
      intro i st j c msg hc hv
      cases j with
      | zero =>
          simp only [List.getElem?_cons_zero, Option.some.injEq] at hc
          subst hc
          simp only [processClips, hv]
          exact processClips_failed_mem fs cfg known step _ rest (i + 1) _ (by simp)
      | succ n =>
          simp only [List.getElem?_cons_succ] at hc
          cases hv0 : validate fs c0 with
          | error m0 => simpa [processClips, hv0] using ih (i + 1) _ n c msg hc hv
          | ok u => cases u; simpa [processClips, hv0] using ih (i + 1) _ n c msg hc hv

/-- Membership in the specified attempt log forces the indexed clip to
exist and validate successfully. -/
theorem expectedAttempts_mem_valid (fs : FileSys) (cfg : List String)
    (known : String → Bool) :
    ∀ (clips : List Clip) (i j : Nat) (p : String),
      (j, p) ∈ expectedAttempts fs cfg known i clips →
      i ≤ j ∧ ∃ c, clips[j - i]? = some c ∧ validate fs c = .ok () := by
  intro clips
  induction clips with
  | nil => intro i j p h; simp [expectedAttempts] at h
  | cons c rest ih =>
      intro i j p h
      simp only [expectedAttempts, List.mem_append] at h
      rcases h with h | h
      · cases hv : validate fs c with
        | error m => rw [hv] at h; simp at h
        | ok u =>
            cases u
            rw [hv] at h
            simp only [List.mem_map] at h
            rcases h with ⟨q, _, hq⟩
            have hji : j = i := by
              have := congrArg Prod.fst hq
              simpa using this.symm
            subst hji
            exact ⟨Nat.le_refl j, c, by simp, hv⟩
      · rcases ih (i + 1) j p h with ⟨hij, c1, hc1, hv1⟩
        refine ⟨by omega, c1, ?_, hv1⟩
        have : j - i = (j - (i + 1)) + 1 := by omega
        rw [this]
        simpa using hc1

/-- C6: no clip-level or platform-level error aborts the batch. The attempt
log of `uploadClips` equals the specified log — one attempt per known
configured platform for every clip that validates, none for a clip that
fails validation — for *every* outcome function, so one platform's failure
or exception never suppresses the remaining platforms or clips, and the
batch itself is a total function (it never throws). A clip failing
validation is recorded by its tagged failure entry and contributes no
attempts. -/
theorem uploadClips_isolation (fs : FileSys) (cfg : List String)
    (known : String → Bool) (step : Nat → Clip → String → UploadStep)
    (clips : List Clip) :
    ((uploadClips fs cfg known step clips).attempts =
      expectedAttempts fs cfg known 0 clips) ∧
    (∀ step2, (uploadClips fs cfg known step2 clips).attempts =
      (uploadClips fs cfg known step clips).attempts) ∧
    (∀ j c msg, clips[j]? = some c → validate fs c = .error msg →
      (c.title ++ ": " ++ msg) ∈ (uploadClips fs cfg known step clips).failed ∧
      ∀ p, (j, p) ∉ (uploadClips fs cfg known step clips).attempts) := by
  refine ⟨?_, ?_, ?_⟩
  · simpa using processClips_attempts fs cfg known step clips 0 ⟨initResults cfg, [], []⟩
  · intro step2
    have h1 := processClips_attempts fs cfg known step clips 0 ⟨initResults cfg, [], []⟩
    have h2 := processClips_attempts fs cfg known step2 clips 0 ⟨initResults cfg, [], []⟩
    simp only [uploadClips]
    rw [h1, h2]
  · intro j c msg hc hv
    constructor
    · exact processClips_invalid_entry fs cfg known step clips 0 ⟨initResults cfg, [], []⟩
        j c msg hc hv
    · intro p hmem
      have hatt := processClips_attempts fs cfg known step clips 0 ⟨initResults cfg, [], []⟩
      rw [show uploadClips fs cfg known step clips =
            processClips fs cfg known step 0 ⟨initResults cfg, [], []⟩ clips from rfl,
          hatt] at hmem
      simp only [List.mem_append] at hmem
      rcases hmem with hmem | hmem
      · simp at hmem
      · rcases expectedAttempts_mem_valid fs cfg known clips 0 j p hmem with ⟨_, c1, hc1, hv1⟩
        simp only [Nat.sub_zero] at hc1
        rw [hc] at hc1
        cases hc1
        rw [hv] at hv1
        cases hv1

/-- C6 witness: a batch of a valid clip, an invalid clip and another valid
clip under the shipped configuration: the attempt log is as specified, the
invalid clip is reported and contributes no attempts. -/
theorem uploadClips_isolation_witness :
    (uploadClips sampleFS defaultConfigPlatforms knownUploaders
        (fun _ _ p => if p = "instagram" then .fail (some "q") else .ok "u")
        [sampleClip, missingFileClip, sampleClip]).attempts =
      expectedAttempts sampleFS defaultConfigPlatforms knownUploaders 0
        [sampleClip, missingFileClip, sampleClip] ∧
    ("Bad: File not found: b.mp4") ∈
      (uploadClips sampleFS defaultConfigPlatforms knownUploaders
        (fun _ _ p => if p = "instagram" then .fail (some "q") else .ok "u")
        [sampleClip, missingFileClip, sampleClip]).failed ∧
    (1, "youtube") ∉
      (uploadClips sampleFS defaultConfigPlatforms knownUploaders
        (fun _ _ p => if p = "instagram" then .fail (some "q") else .ok "u")
        [sampleClip, missingFileClip, sampleClip]).attempts := by
  have h := uploadClips_isolation sampleFS defaultConfigPlatforms knownUploaders
    (fun _ _ p => if p = "instagram" then .fail (some "q") else .ok "u")
    [sampleClip, missingFileClip, sampleClip]
  have h3 := h.2.2 1 missingFileClip "File not found: b.mp4" (by decide) rfl
  exact ⟨h.1, h3.1, h3.2 "youtube"⟩

/-- C1: the claim fails on the code — `uploadClips` drives every clip
through `CONFIG.PLATFORMS_TO_UPLOAD` and never reads `clip.platforms`, so
the derived single-platform clip of a `schedulePlatformUploads` job (with
`platforms = ["youtube"]`) is attempted on all three configured platforms,
contradicting the clip's own target platform list (which the code's
documentation, CLI `--platforms` option and derived-clip construction
treat as the set of platforms to post to). -/
theorem uploadClips_ignores_clip_platforms :
    sampleClip.platforms = ["youtube"] ∧
    ((schedulePlatformUploads ⟨100, 0⟩ sampleClip [("youtube", 9, 0)]).map
        (fun j => j.clip.platforms)) = [["youtube"]] ∧
    ((schedulePlatformUploads ⟨100, 0⟩ sampleClip [("youtube", 9, 0)]).map
        (fun j => (uploadClips sampleFS defaultConfigPlatforms knownUploaders
          (fun _ _ _ => .ok "u") [j.clip]).attempts)) =
      [[(0, "youtube"), (0, "instagram"), (0, "tiktok")]] ∧
    [[(0, "youtube"), (0, "instagram"), (0, "tiktok")]] ≠
      [[((0 : Nat), "youtube")]] := by
  refine ⟨rfl, by decide, by decide, by decide⟩

/-- A filter that discards at least one occurrence shortens the list. -/
theorem filter_length_lt_of_mem {l : List Nat} {p : Nat → Bool} {a : Nat}
    (ha : a ∈ l) (hpa : p a = false) : (l.filter p).length < l.length := by
  induction l with
  | nil => cases ha
  | cons x xs ih =>
      by_cases hx : p x
      · have hax : a ∈ xs := by
          rcases List.mem_cons.mp ha with h | h
          · subst h; rw [hx] at hpa; cases hpa
          · exact h
        simp only [List.filter_cons, hx, if_true, List.length_cons]
        exact Nat.succ_lt_succ (ih hax)
      · simp only [List.filter_cons, hx, if_false, List.length_cons]
        exact Nat.lt_succ_of_le (List.length_filter_le _ xs)

/-- The limiter's reachable-state invariant: every recorded timestamp is
at most the last return instant, and from that instant on, the trailing
window never holds more than `maxRequests` recorded timestamps. -/
theorem rlReach_invariant (m W : Nat) (hm : 0 < m) :
    ∀ {s : List Nat} {ret : Nat}, RLReach m W s ret →
      (∀ x ∈ s, x ≤ ret) ∧ (∀ u, ret ≤ u → windowCount W u s ≤ m) := by
  intro s ret h
  induction h with
  | init => exact ⟨by simp, fun u _ => by simp [windowCount]⟩
  | @step s ret t hreach hle ih =>
      obtain ⟨hmem, hcount⟩ := ih
      have hFlen : (s.filter fun x => t - x < W).length ≤ m := hcount t hle
      by_cases hfull : m ≤ (s.filter fun x => t - x < W).length
      · have hFlen' : (s.filter fun x => t - x < W).length = m :=
          Nat.le_antisymm hFlen hfull
        have hFne : (s.filter fun x => t - x < W) ≠ [] := by
          intro h0
          rw [h0] at hFlen'
          simp at hFlen'
          omega
        obtain ⟨oldest, hmin⟩ : ∃ a, (s.filter fun x => t - x < W).min? = some a := by
          cases hFmin : (s.filter fun x => t - x < W).min? with
          | none => exact absurd (List.min?_eq_none_iff.mp hFmin) hFne
          | some a => exact ⟨a, rfl⟩
        have holdF : oldest ∈ (s.filter fun x => t - x < W) :=
          List.min?_mem (fun a b => by omega) hmin
        have hold_s : oldest ∈ s := List.mem_of_mem_filter holdF
        have hold_win : t - oldest < W := by
          have := List.of_mem_filter holdF
          simpa using this
        have hold_t : oldest ≤ t := Nat.le_trans (hmem oldest hold_s) hle
        have hcl : checkLimit m W s t =
            ⟨(s.filter fun x => t - x < W) ++ [t], W - (t - oldest),
              t + (W - (t - oldest))⟩ := by
          unfold checkLimit
          rw [if_pos hfull, hmin]
        rw [hcl]
        dsimp only
        have hret : t + (W - (t - oldest)) = oldest + W := by omega
        constructor
        · intro x hx
          rcases List.mem_append.mp hx with hx | hx
          · exact Nat.le_trans (Nat.le_trans (hmem x (List.mem_of_mem_filter hx)) hle)
              (Nat.le_add_right t _)
          · simp only [List.mem_singleton] at hx
            subst hx
            omega
        · intro u hu
          have hu' : oldest + W ≤ u := hret ▸ hu
          have hold_out : (fun x => decide (u - x < W)) oldest = false := by
            simp only [decide_eq_false_iff_not]
            omega
          have h1 : ((s.filter fun x => t - x < W).filter fun x => u - x < W).length <
              (s.filter fun x => t - x < W).length :=
            filter_length_lt_of_mem holdF hold_out
          have h2 : (([t].filter fun x => u - x < W)).length ≤ 1 :=
            List.length_filter_le _ _
          simp only [windowCount, List.filter_append, List.length_append]
          omega
      · have hcl : checkLimit m W s t =
            ⟨(s.filter fun x => t - x < W) ++ [t], 0, t⟩ := by
          unfold checkLimit
          rw [if_neg hfull]
        rw [hcl]
        dsimp only
        constructor
        · intro x hx
          rcases List.mem_append.mp hx with hx | hx
          · exact Nat.le_trans (hmem x (List.mem_of_mem_filter hx)) hle
          · simp only [List.mem_singleton] at hx
            subst hx
            omega
        · intro u hu
          have h1 : ((s.filter fun x => t - x < W).filter fun x => u - x < W).length ≤
              (s.filter fun x => t - x < W).length :=
            List.length_filter_le _ _
          have h2 : (([t].filter fun x => u - x < W)).length ≤ 1 :=
            List.length_filter_le _ _
          simp only [windowCount, List.filter_append, List.length_append]
          omega

/-- C3: across every sequence of sequential `checkLimit` calls, at every
instant from the latest call's return onwards the recorded list holds at
most `maxRequests` timestamps inside the trailing window; and a call
finding the window full waits exactly `windowMs - (now - oldest)` — no
extra margin — then records the request timestamp and returns, while a
call finding capacity records immediately with no wait. -/
theorem checkLimit_window_invariant (m W : Nat) (hm : 0 < m) {s : List Nat} {ret : Nat}
    (h : RLReach m W s ret) :
    (∀ u, ret ≤ u → windowCount W u s ≤ m) ∧
    (∀ (reqs : List Nat) (now oldest : Nat),
      m ≤ (reqs.filter fun x => now - x < W).length →
      (reqs.filter fun x => now - x < W).min? = some oldest →
      checkLimit m W reqs now =
        ⟨(reqs.filter fun x => now - x < W) ++ [now], W - (now - oldest),
          now + (W - (now - oldest))⟩) ∧
    (∀ (reqs : List Nat) (now : Nat),
      (reqs.filter fun x => now - x < W).length < m →
      checkLimit m W reqs now = ⟨(reqs.filter fun x => now - x < W) ++ [now], 0, now⟩) := by
  refine ⟨(rlReach_invariant m W hm h).2, ?_, ?_⟩
  · intro reqs now oldest hfull hmin
    unfold checkLimit
    rw [if_pos hfull, hmin]
  · intro reqs now hroom
    unfold checkLimit
    rw [if_neg (Nat.not_le.mpr hroom)]

/-- C3 witness: with `maxRequests = 1`, `windowMs = 10`, calls at instants
0 and 5: the second call finds the window full, waits exactly 5 ms and
returns at 10; from instant 10 onwards the recorded list `[0, 5]` never
shows more than one timestamp per trailing window. -/
theorem checkLimit_window_invariant_witness :
    windowCount 10 12 [0, 5] ≤ 1 ∧
    checkLimit 1 10 [0] 5 = ⟨[0, 5], 5, 10⟩ := by
  have h0 : RLReach 1 10 [0] 0 :=
    RLReach.step 0 RLReach.init (Nat.le_refl 0)
  have h1 : RLReach 1 10 [0, 5] 10 :=
    RLReach.step 5 h0 (by omega)
  have h := checkLimit_window_invariant 1 10 (by decide) h1
  exact ⟨h.1 12 (by omega), h.2.1 [0] 5 0 (by decide) (by decide)⟩

/-- In-place property overwrite, seen through `lookup` at the written key. -/
theorem lookup_map_update {α : Type} (m : List (String × α)) (k : String) (v : α) :
    (m.map fun kv => if kv.1 = k then (kv.1, v) else kv).lookup k
      = (m.lookup k).map fun _ => v := by
  induction m with
  | nil => simp
  | cons kv rest ih =>
      obtain ⟨k1, v1⟩ := kv
      by_cases hk : k1 = k
      · subst hk
        simp [List.lookup_cons]
      · have hb : (k == k1) = false := beq_eq_false_iff_ne.mpr (Ne.symm hk)
        simp [List.lookup_cons, hb, if_neg hk, ih]

/-- In-place property overwrite, seen through `lookup` at any other key. -/
theorem lookup_map_update_other {α : Type} (m : List (String × α)) (k k' : String)
    (v : α) (hne : k' ≠ k) :
    (m.map fun kv => if kv.1 = k then (kv.1, v) else kv).lookup k' = m.lookup k' := by
  induction m with
  | nil => simp
  | cons kv rest ih =>
      obtain ⟨k1, v1⟩ := kv
      by_cases hk : k1 = k
      · subst hk
        have hb : (k' == k1) = false := beq_eq_false_iff_ne.mpr hne
        simp [List.lookup_cons, hb, ih]
      · by_cases hk' : k' = k1
        · subst hk'
          simp [List.lookup_cons, if_neg hk]
        · have hb : (k' == k1) = false := beq_eq_false_iff_ne.mpr hk'
          simp [List.lookup_cons, hb, if_neg hk, ih]

/-- Property assignment stores the value under its key. -/
theorem lookup_setAssoc_same {α : Type} (m : List (String × α)) (k : String) (v : α) :
    (setAssoc m k v).lookup k = some v := by
  unfold setAssoc
  by_cases h : (m.lookup k).isSome
  · rw [if_pos h, lookup_map_update]
    obtain ⟨w, hw⟩ := Option.isSome_iff_exists.mp h
    rw [hw]
    rfl
  · rw [if_neg h, List.lookup_append, Option.not_isSome_iff_eq_none.mp h]
    simp

/-- Property assignment leaves other keys untouched. -/
theorem lookup_setAssoc_other {α : Type} (m : List (String × α)) (k k' : String) (v : α)
    (hne : k' ≠ k) : (setAssoc m k v).lookup k' = m.lookup k' := by
  unfold setAssoc
  by_cases h : (m.lookup k).isSome
  · rw [if_pos h, lookup_map_update_other m k k' v hne]
  · rw [if_neg h, List.lookup_append]
    cases hm : m.lookup k' with
    | some w => simp
    | none =>
        have hb : (k' == k) = false := beq_eq_false_iff_ne.mpr hne
        simp [List.lookup_cons, hb]

/-- Heap cell update, read back at the written address. -/
theorem heapGet_heapSet_same (h : List (Nat × HeapVal)) (r : Nat) (v w : HeapVal)
    (hr : heapGet h r = some w) : heapGet (heapSet h r v) r = some v := by
  unfold heapGet heapSet
  unfold heapGet at hr
  induction h with
  | nil => simp at hr
  | cons cell rest ih =>
      obtain ⟨r1, v1⟩ := cell
      by_cases hr1 : r1 = r
      · subst hr1
        simp [List.lookup_cons]
      · have hb : (r == r1) = false := beq_eq_false_iff_ne.mpr (Ne.symm hr1)
        simp only [List.map_cons, if_neg hr1, List.lookup_cons, hb, if_false] at hr ⊢
        exact ih hr

/-- Heap cell update, read back at any other address. -/
theorem heapGet_heapSet_other (h : List (Nat × HeapVal)) (r r' : Nat) (v : HeapVal)
    (hne : r' ≠ r) : heapGet (heapSet h r v) r' = heapGet h r' := by
  unfold heapGet heapSet
  induction h with
  | nil => simp
  | cons cell rest ih =>
      obtain ⟨r1, v1⟩ := cell
      by_cases hr1 : r1 = r
      · subst hr1
        have hb : (r' == r1) = false := beq_eq_false_iff_ne.mpr hne
        simp [List.lookup_cons, hb, ih]
      · by_cases hr' : r' = r1
        · subst hr'
          simp [List.lookup_cons, if_neg hr1]
        · have hb : (r' == r1) = false := beq_eq_false_iff_ne.mpr hr'
          simp [List.lookup_cons, hb, if_neg hr1, ih]

/-- The constructor produces the canonical state. -/
theorem initAnalytics_mk : initAnalytics = mkAnalytics 0 [] [] [] [] := rfl

/-- `recordUpload` in canonical form: counters bumped in place, history
untouched, the performance table rewritten at the platform's key. -/
theorem recordUpload_mk (now : String) (tu : Nat) (sm fm : List (String × Nat))
    (hist : List BatchSummary) (pm : List (String × PlatPerf)) (p : String)
    (success : Bool) (e : Option String) :
    recordUpload now (mkAnalytics tu sm fm hist pm) p success e =
      mkAnalytics (tu + 1)
        (if success then setAssoc sm p (getCount sm p + 1) else sm)
        (if success then fm else setAssoc fm p (getCount fm p + 1))
        hist
        (setAssoc (if (pm.lookup p).isSome then pm else pm ++ [(p, ⟨0, 0, none, []⟩)]) p
          (newPerf now sm pm p success e)) := by
  cases success <;>
    cases hlook : pm.lookup p <;>
      cases e <;>
        simp [recordUpload, mkAnalytics, bumpCounterCell, heapGet, heapSet, newPerf,
          List.lookup_cons, hlook, List.lookup_append, lookup_setAssoc_same, getCount]

/-- `addUploadBatch` in canonical form: only the history cell changes. -/
theorem addUploadBatch_mk (now : String) (tu : Nat) (sm fm : List (String × Nat))
    (hist : List BatchSummary) (pm : List (String × PlatPerf)) (n : Nat)
    (ps : List String) (rs : List (String × List String)) (fl : List String) :
    addUploadBatch now (mkAnalytics tu sm fm hist pm) n ps rs fl =
      mkAnalytics tu sm fm (hist ++ [⟨now, n, ps, rs, fl⟩]) pm := by
  simp [addUploadBatch, mkAnalytics, heapGet, heapSet, List.lookup_cons]

/-- Reading the performance table of a canonical state. -/
theorem perfOf_mk (tu : Nat) (sm fm : List (String × Nat)) (hist : List BatchSummary)
    (pm : List (String × PlatPerf)) (p : String) :
    perfOf (mkAnalytics tu sm fm hist pm) p = pm.lookup p := by
  simp [perfOf, mkAnalytics, heapGet, List.lookup_cons]

/-- Reading the success counter of a canonical state. -/
theorem succCountOf_mk (tu : Nat) (sm fm : List (String × Nat)) (hist : List BatchSummary)
    (pm : List (String × PlatPerf)) (p : String) :
    succCountOf (mkAnalytics tu sm fm hist pm) p = getCount sm p := by
  simp [succCountOf, mkAnalytics, heapGet, List.lookup_cons]

/-- Bumping a counter changes the counter object. -/
theorem setAssoc_bump_ne (m : List (String × Nat)) (k : String) :
    setAssoc m k (getCount m k + 1) ≠ m := by
  intro heq
  have h1 : (setAssoc m k (getCount m k + 1)).lookup k = some (getCount m k + 1) :=
    lookup_setAssoc_same m k _
  rw [heq] at h1
  cases hm : m.lookup k with
  | none => rw [hm] at h1; cases h1
  | some c =>
      rw [hm] at h1
      simp only [getCount, hm, Option.getD_some, Option.some.injEq] at h1
      omega

/-- C4 counterexample: record one success then one failure for the same
platform. The stored rate stays at 1 while successes divided by total
attempts is 1/2: after a failure call the stored per-platform success
rate does not equal `successes / totalAttemptsForPlatform`. -/
theorem recordUpload_rate_counterexample :
    (perfOf (recordUpload "t2" (recordUpload "t1" initAnalytics "yt" true none)
        "yt" false (some "e")) "yt").map PlatPerf.successRate = some 1 ∧
    succCountOf (recordUpload "t2" (recordUpload "t1" initAnalytics "yt" true none)
        "yt" false (some "e")) "yt" = 1 ∧
    (perfOf (recordUpload "t2" (recordUpload "t1" initAnalytics "yt" true none)
        "yt" false (some "e")) "yt").map PlatPerf.totalAttempts = some 2 ∧
    (1 : Rat) ≠ (1 : Rat) / (2 : Rat) := by
  refine ⟨?_, ?_, ?_, by norm_num⟩ <;>
  · rw [initAnalytics_mk, recordUpload_mk, recordUpload_mk]
    simp [perfOf_mk, succCountOf_mk, newPerf, setAssoc, getCount, List.lookup_cons]

/-- C4 (amended): on every reachable (canonical) analytics state, a
`recordUpload(p, true)` call leaves the stored per-platform rate equal to
the platform's success count divided by its attempt count; a
`recordUpload(p, false)` call increments the attempt count and leaves the
success count untouched, but keeps the stored rate at its previous value
(0 for a platform seen for the first time) — the rate is recomputed only
on success, not on failure. -/
theorem recordUpload_rate_amended (now : String) (tu : Nat)
    (sm fm : List (String × Nat)) (hist : List BatchSummary)
    (pm : List (String × PlatPerf)) (p : String) (e : Option String) :
    (∃ perf, perfOf (recordUpload now (mkAnalytics tu sm fm hist pm) p true e) p
        = some perf ∧
      succCountOf (recordUpload now (mkAnalytics tu sm fm hist pm) p true e) p
        = succCountOf (mkAnalytics tu sm fm hist pm) p + 1 ∧
      perf.totalAttempts =
        ((perfOf (mkAnalytics tu sm fm hist pm) p).map PlatPerf.totalAttempts).getD 0 + 1 ∧
      perf.successRate =
        ((succCountOf (recordUpload now (mkAnalytics tu sm fm hist pm) p true e) p : Nat)
          : Rat) / ((perf.totalAttempts : Nat) : Rat)) ∧
    (∃ perf, perfOf (recordUpload now (mkAnalytics tu sm fm hist pm) p false e) p
        = some perf ∧
      succCountOf (recordUpload now (mkAnalytics tu sm fm hist pm) p false e) p
        = succCountOf (mkAnalytics tu sm fm hist pm) p ∧
      perf.totalAttempts =
        ((perfOf (mkAnalytics tu sm fm hist pm) p).map PlatPerf.totalAttempts).getD 0 + 1 ∧
      perf.successRate =
        ((perfOf (mkAnalytics tu sm fm hist pm) p).map PlatPerf.successRate).getD 0) := by
  constructor
  · refine ⟨newPerf now sm pm p true e, ?_, ?_, ?_, ?_⟩
    · rw [recordUpload_mk, perfOf_mk, lookup_setAssoc_same]
    · rw [recordUpload_mk, succCountOf_mk, succCountOf_mk]
      simp [getCount, lookup_setAssoc_same]
    · rw [perfOf_mk]
      cases hlook : pm.lookup p <;> simp [newPerf, hlook]
    · rw [recordUpload_mk, succCountOf_mk]
      simp only [getCount, lookup_setAssoc_same, Option.getD_some]
      cases hlook : pm.lookup p <;>
        simp [newPerf, hlook, getCount, lookup_setAssoc_same]
  · refine ⟨newPerf now sm pm p false e, ?_, ?_, ?_, ?_⟩
    · rw [recordUpload_mk, perfOf_mk, lookup_setAssoc_same]
    · rw [recordUpload_mk, succCountOf_mk, succCountOf_mk]
      simp
    · rw [perfOf_mk]
      cases hlook : pm.lookup p <;> cases e <;> simp [newPerf, hlook]
    · rw [perfOf_mk]
      cases hlook : pm.lookup p <;> cases e <;> simp [newPerf, hlook]

/-- C9 counterexample: take a snapshot, then record an upload. Viewed
through the earlier snapshot's reference, the `successfulUploads` table
has changed — the spread copy is shallow, so a later `recordUpload` does
alter the contents reachable from a previously returned snapshot. -/
theorem getStats_shallow_counterexample :
    snapSuccView (getStats initAnalytics)
        (recordUpload "t" initAnalytics "yt" true none) ≠
      snapSuccView (getStats initAnalytics) initAnalytics ∧
    snapSuccView (getStats initAnalytics)
        (recordUpload "t" initAnalytics "yt" true none)
      = some (.counters [("yt", 1)]) ∧
    snapSuccView (getStats initAnalytics) initAnalytics = some (.counters []) := by
  refine ⟨by decide, by decide, by decide⟩

/-- C9 (amended): `getStats` returns a shallow copy of `this.data`. Two
snapshots with no intervening mutation are equal, and the copied top-level
`totalUploads` number of an earlier snapshot is unaffected by a later
`recordUpload` (which produces a state whose own counter is one higher);
but the nested collections are shared by reference, so the
`successfulUploads` contents seen through an earlier snapshot change when
a later `recordUpload` succeeds. -/
theorem getStats_shallow_amended (now p : String) (e : Option String) (tu : Nat)
    (sm fm : List (String × Nat)) (hist : List BatchSummary)
    (pm : List (String × PlatPerf)) :
    getStats (mkAnalytics tu sm fm hist pm) = getStats (mkAnalytics tu sm fm hist pm) ∧
    (getStats (mkAnalytics tu sm fm hist pm)).totalUploads = tu ∧
    (getStats (recordUpload now (mkAnalytics tu sm fm hist pm) p true e)).totalUploads
      = tu + 1 ∧
    snapSuccView (getStats (mkAnalytics tu sm fm hist pm))
        (recordUpload now (mkAnalytics tu sm fm hist pm) p true e) ≠
      snapSuccView (getStats (mkAnalytics tu sm fm hist pm))
        (mkAnalytics tu sm fm hist pm) := by
  refine ⟨rfl, rfl, ?_, ?_⟩
  · rw [recordUpload_mk]
    rfl
  · rw [recordUpload_mk]
    simpa [snapSuccView, getStats, mkAnalytics, heapGet, List.lookup_cons] using
      setAssoc_bump_ne sm p

end Uploader
